import Mathlib

/-!
Verification development for the hybrid encrypt-and-sign protocol of
`src/utils/crypto.ts` (cookie-cloud-chrome).

The protocol code of `crypto.ts` is embedded shallowly.  Byte strings are
`List Nat` (each element `< 256`).  The external libraries (`elliptic` for
the secp256k1 group and ECDSA, `crypto-js` for AES/MD5/SHA256 and encodings)
are modelled by a bundle of abstract primitives (`CryptoLib`) together with
the contracts those libraries provide (ECDH/group laws, block-cipher
inversion, signature completeness).  The CBC mode, PKCS#7 padding, hex and
Base64 codecs which `crypto.ts` selects via its CryptoJS configuration are
embedded concretely, so that the envelope-level data flow of the TypeScript
source is reproduced step by step.
-/

namespace CookieCloud

/-- A byte string: every element is a byte value below 256. -/
def BytesOk (l : List Nat) : Prop := ∀ b ∈ l, b < 256

instance : DecidablePred BytesOk := fun l =>
  List.decidableBAll (fun b => b < 256) l

/-- Lowercase hex digit characters, as used by crypto-js `toString(16)` output. -/
def hexAlphabet : List Char := "0123456789abcdef".data

/-- The hex digit character of `n % 16`. -/
def hexDigitChar (n : Nat) : Char := hexAlphabet.getD (n % 16) '0'

/-- Hex rendering of a natural number, most significant digit first
(`BN.toString(16)` in the source); `fuel` bounds the number of digits. -/
def natToHexAux : Nat → Nat → List Char
  | 0, _ => []
  | _ + 1, 0 => []
  | fuel + 1, n => natToHexAux fuel (n / 16) ++ [hexDigitChar n]

/-- `n.toString(16)` of the source: minimal lowercase hex, `"0"` for zero. -/
def natToHex (n : Nat) : String :=
  if n = 0 then "0" else ⟨natToHexAux 256 n⟩

/-- `.padStart(64, '0')` of the source applied to a hex string. -/
def padStart64 (s : String) : String :=
  ⟨List.replicate (64 - s.data.length) '0' ++ s.data⟩

/-- Value of one hex digit character (crypto-js `Hex.parse` digit step). -/
def hexDigitVal (c : Char) : Nat := (hexAlphabet.indexOf c) % 16

/-- Pairs of hex digits to bytes (crypto-js `CryptoJS.enc.Hex.parse`). -/
def hexPairs : List Char → List Nat
  | [] => []
  | [_] => []
  | c1 :: c2 :: rest => (hexDigitVal c1 * 16 + hexDigitVal c2) :: hexPairs rest

/-- `CryptoJS.enc.Hex.parse` on a string. -/
def hexToBytes (s : String) : List Nat := hexPairs s.data

/-- The Base64 alphabet of crypto-js (`CryptoJS.enc.Base64`). -/
def b64Alphabet : List Char :=
  "ABCDEFGHIJKLMNOPQRSTUVWXYZabcdefghijklmnopqrstuvwxyz0123456789+/".data

/-- Base64 character for a 6-bit value. -/
def b64Char (n : Nat) : Char := b64Alphabet.getD (n % 64) 'A'

/-- 6-bit value of a Base64 character (junk characters map to 0). -/
def b64Val (c : Char) : Nat := (b64Alphabet.indexOf c) % 64

/-- `CryptoJS.enc.Base64.stringify`: bytes to Base64 characters with
`=` padding. -/
def b64EncodeAux : List Nat → List Char
  | [] => []
  | [a] => [b64Char (a / 4), b64Char (a % 4 * 16), '=', '=']
  | [a, b] => [b64Char (a / 4), b64Char (a % 4 * 16 + b / 16), b64Char (b % 16 * 4), '=']
  | a :: b :: c :: rest =>
    b64Char (a / 4) :: b64Char (a % 4 * 16 + b / 16) ::
      b64Char (b % 16 * 4 + c / 64) :: b64Char (c % 64) :: b64EncodeAux rest

/-- Base64 encoding to a string (`.toString()` on a crypto-js cipher params /
`CryptoJS.enc.Base64.stringify`). -/
def b64Encode (l : List Nat) : String := ⟨b64EncodeAux l⟩

/-- `CryptoJS.enc.Base64.parse`: Base64 characters back to bytes.  Like the
library it is total: it never throws, `=` terminates a quadruple early. -/
def b64DecodeAux : List Char → List Nat
  | c1 :: c2 :: c3 :: c4 :: rest =>
    if c3 = '=' then [b64Val c1 * 4 + b64Val c2 / 16]
    else if c4 = '=' then
      [b64Val c1 * 4 + b64Val c2 / 16, b64Val c2 % 16 * 16 + b64Val c3 / 4]
    else
      (b64Val c1 * 4 + b64Val c2 / 16) :: (b64Val c2 % 16 * 16 + b64Val c3 / 4) ::
        (b64Val c3 % 4 * 64 + b64Val c4) :: b64DecodeAux rest
  | _ => []

/-- Base64 decoding of a string. -/
def b64Decode (s : String) : List Nat := b64DecodeAux s.data

/-- Bytewise XOR of two blocks (the word-level XOR of crypto-js CBC). -/
def xorBytes (a b : List Nat) : List Nat := List.zipWith Nat.xor a b

/-- Split a byte string into 16-byte cipher blocks (crypto-js processes
4-word = 16-byte blocks); `fuel` bounds the number of blocks. -/
def chunks16F : Nat → List Nat → List (List Nat)
  | 0, _ => []
  | _ + 1, [] => []
  | fuel + 1, l => l.take 16 :: chunks16F fuel (l.drop 16)

/-- Split into 16-byte blocks. -/
def chunks16 (l : List Nat) : List (List Nat) := chunks16F l.length l

/-- CBC encryption of a block sequence: each plaintext block is XORed with
the previous ciphertext block (initially the IV) and passed through the
block cipher `E`. -/
def cbcEncBlocks (E : List Nat → List Nat) : List Nat → List (List Nat) → List (List Nat)
  | _, [] => []
  | prev, b :: bs =>
    let c := E (xorBytes prev b)
    c :: cbcEncBlocks E c bs

/-- CBC decryption of a block sequence. -/
def cbcDecBlocks (D : List Nat → List Nat) : List Nat → List (List Nat) → List (List Nat)
  | _, [] => []
  | prev, c :: cs => xorBytes prev (D c) :: cbcDecBlocks D c cs

/-- CBC-mode encryption over a byte string (`CryptoJS.mode.CBC`). -/
def cbcEncrypt (E : List Nat → List Nat) (iv pt : List Nat) : List Nat :=
  (cbcEncBlocks E iv (chunks16 pt)).flatten

/-- CBC-mode decryption over a byte string. -/
def cbcDecrypt (D : List Nat → List Nat) (iv ct : List Nat) : List Nat :=
  (cbcDecBlocks D iv (chunks16 ct)).flatten

/-- PKCS#7 padding (`CryptoJS.pad.Pkcs7`): append `k` copies of `k` where
`k = 16 - len % 16`. -/
def pkcs7Pad (l : List Nat) : List Nat :=
  let k := 16 - l.length % 16
  l ++ List.replicate k k

/-- Modelled from the spec: PKCS#7 unpadding of the Symmetric Envelope
Codec (the `CryptoJS.pad.Pkcs7` / UTF-8 decode step of the library), which
per §7 fails with a padding/format inconsistency on any malformed padding
instead of returning partial plaintext. -/
def pkcs7Unpad (l : List Nat) : Option (List Nat) :=
  if l.length = 0 ∨ l.length % 16 ≠ 0 then none
  else
    let r := l.reverse
    let k := r.headD 0
    if k = 0 ∨ 16 < k ∨ l.length < k then none
    else if (r.take k).all (fun b => b == k) then some (r.drop k).reverse
    else none

/-- Parse a hex private-key string to a scalar (`ec.keyFromPrivate(_, 'hex')`). -/
def hexToNat (s : String) : Nat :=
  s.data.foldl (fun acc c => acc * 16 + hexDigitVal c) 0

/-- The abstract interface of the external cryptographic libraries used by
`crypto.ts` — the secp256k1 group and ECDSA of `elliptic`, and the AES block
cipher and MD5 digest of `crypto-js` — together with the contracts those
libraries provide: group scalar action, block-cipher inversion and
signature completeness.  Only the parts `crypto.ts` calls are modelled. -/
structure CryptoLib where
  /-- Curve points (`elliptic` point objects). -/
  Pt : Type
  /-- `ec.keyFromPublic(hex, 'hex')`: may fail on a malformed encoding. -/
  decodePoint : String → Option Pt
  /-- `point.getPublic(true, 'hex')`: compressed lowercase hex encoding. -/
  encodePoint : Pt → String
  /-- Scalar action `k · P` (used by `getPublic`/`derive`). -/
  actP : Nat → Pt → Pt
  /-- The curve base point `G`. -/
  basePoint : Pt
  /-- Affine x-coordinate of a point, as returned by `derive` (a BN). -/
  xCoord : Pt → Nat
  /-- AES-256 block encryption: key and one 16-byte block. -/
  aesE : List Nat → List Nat → List Nat
  /-- AES-256 block decryption. -/
  aesD : List Nat → List Nat → List Nat
  /-- `CryptoJS.MD5(_).toString()`. -/
  md5 : String → String
  /-- `sign`: SHA-256 digest, ECDSA sign, DER, Base64 (crypto.ts lines 163-177). -/
  sigSign : Nat → String → String
  /-- `verify`: Base64 decode, DER, ECDSA verify over the SHA-256 digest
  (crypto.ts lines 186-199). -/
  sigVerify : String → String → String → Bool
  /-- Whether a byte string is well-formed UTF-8
  (`decrypted.toString(CryptoJS.enc.Utf8)` throws otherwise). -/
  utf8Check : List Nat → Bool
  /-- Decoding a just-encoded point succeeds (elliptic round-trip). -/
  decode_encode : ∀ P, decodePoint (encodePoint P) = some P
  /-- The scalar action is an action: `a · (b · P) = (a * b) · P`. -/
  act_act : ∀ a b P, actP a (actP b P) = actP (a * b) P
  /-- x-coordinates are 256-bit field elements. -/
  xCoord_lt : ∀ P, xCoord P < 2 ^ 256
  /-- The block cipher is invertible. -/
  aesD_aesE : ∀ k b, aesD k (aesE k b) = b
  /-- The block cipher preserves block length. -/
  aesE_len : ∀ k b, (aesE k b).length = b.length
  /-- The block cipher produces bytes. -/
  aesE_ok : ∀ k b, BytesOk b → BytesOk (aesE k b)
  /-- Signature completeness: a signature made with a private scalar
  verifies under the corresponding public key. -/
  sigVerify_sign : ∀ k m, sigVerify (encodePoint (actP k basePoint)) m (sigSign k m) = true

/-- The error kinds of §7 of the spec; `crypto.ts` throws `Error` objects
with corresponding messages. -/
inductive CryptoError
  | invalidKey
  | signatureInvalid
  | notRecipient
  | decryptionFailed
deriving DecidableEq

/-- The single-recipient envelope `{ephPubKey, data, signature}`.  The JSON
serialization at the function boundary (`JSON.stringify`/`JSON.parse` of
this fixed shape) is modelled as the identity on this structure. -/
structure SingleEnv where
  ephPubKey : String
  data : String
  signature : String
deriving DecidableEq

/-- The multi-recipient envelope `{ephPubKey, data, shareKeys, signature}`;
`shareKeys` is a JS object, modelled as an insertion-ordered association
list with in-place update (see `objInsert`). -/
structure MultiEnv where
  ephPubKey : String
  data : String
  shareKeys : List (String × String)
  signature : String
deriving DecidableEq

/-- `JSON.stringify({ephPubKey, data})` — the exact string signed and
verified by the protocol (crypto.ts lines 90-93, 120-123, 262-265,
299-302). -/
def jsonPair (e d : String) : String :=
  "\x7b\"ephPubKey\":\"" ++ e ++ "\",\"data\":\"" ++ d ++ "\"\x7d"

/-- `shareKeys[keyHash] = encryptedKey` on a JS object: update in place if
the key exists, else append. -/
def objInsert (m : List (String × String)) (k v : String) : List (String × String) :=
  if m.any (fun p => p.1 == k) then
    m.map (fun p => if p.1 == k then (k, v) else p)
  else m ++ [(k, v)]

/-- `shareKeys[keyHash]` read on a JS object. -/
def objGet (m : List (String × String)) (k : String) : Option String :=
  (m.find? (fun p => p.1 == k)).map (fun p => p.2)

/-- `CryptoJS.AES.encrypt` as configured by `crypto.ts`: CBC mode, with
PKCS#7 padding (`doPad = true`) or no padding (`doPad = false`).  When
`cfg.iv` is supplied the cipher is fully determined by it; the `rand`
argument models the randomness the library would draw for its IV/salt if
no IV were supplied (crypto.ts always supplies one). -/
def cryptoJSAESEncrypt (L : CryptoLib) (key : List Nat) (ivOpt : Option (List Nat))
    (rand : List Nat) (doPad : Bool) (pt : List Nat) : List Nat :=
  let body := if doPad then pkcs7Pad pt else pt
  match ivOpt with
  | some iv => cbcEncrypt (L.aesE key) iv body
  | none => cbcEncrypt (L.aesE key) (rand.take 16) body

/-- The shared-secret hex string
`sharedSecret.toString(16).padStart(64, '0')` for
`sharedSecret = own.derive(peerPoint)` (ECDH then fixed-width rendering). -/
def sharedSecretHex (L : CryptoLib) (ownPriv : Nat) (peer : L.Pt) : String :=
  padStart64 (natToHex (L.xCoord (L.actP ownPriv peer)))

/-- Shared-secret key material:
`CryptoJS.enc.Hex.parse(sharedSecret.toString(16).padStart(64, '0'))`. -/
def sharedSecretKeyBytes (L : CryptoLib) (ownPriv : Nat) (peer : L.Pt) : List Nat :=
  hexToBytes (sharedSecretHex L ownPriv peer)

/-- `encryptAndSign` (crypto.ts lines 65-104).  The ephemeral keypair the
source draws from the CSPRNG is the `ephPriv` input. -/
def encryptAndSign (L : CryptoLib) (ephPriv : Nat)
    (recipientPublicKey senderPrivateKey : String) (data : List Nat) :
    Except CryptoError SingleEnv :=
  match L.decodePoint recipientPublicKey with
  | none => .error .invalidKey
  | some recipientPublic =>
    let sharedSecretKey := sharedSecretKeyBytes L ephPriv recipientPublic
    let encrypted := b64Encode (cryptoJSAESEncrypt L sharedSecretKey
      (some (sharedSecretKey.take 16)) [] true data)
    let ephPubKey := L.encodePoint (L.actP ephPriv L.basePoint)
    let dataToSign := jsonPair ephPubKey encrypted
    let signature := L.sigSign (hexToNat senderPrivateKey) dataToSign
    .ok ⟨ephPubKey, encrypted, signature⟩

/-- Events recorded by the instrumented decryption functions, in source
order: signature verification, `shareKeys` lookup, and each
`CryptoJS.AES.decrypt` invocation. -/
inductive Ev
  | verifySig (ok : Bool)
  | lookupKey (found : Bool)
  | decryptStep
deriving DecidableEq

/-- `verifyAndDecrypt` (crypto.ts lines 114-155), instrumented with the
event trace of its execution.  The returned value is the first component;
the trace records the order in which verification and decryption happen. -/
def verifyAndDecryptTr (L : CryptoLib) (recipientPrivateKey senderPublicKey : String)
    (env : SingleEnv) : Except CryptoError (List Nat) × List Ev :=
  let dataToVerify := jsonPair env.ephPubKey env.data
  if L.sigVerify senderPublicKey dataToVerify env.signature then
    match L.decodePoint env.ephPubKey with
    | none => (.error .invalidKey, [.verifySig true])
    | some ephemeralPublic =>
      let sharedSecretKey :=
        sharedSecretKeyBytes L (hexToNat recipientPrivateKey) ephemeralPublic
      let decryptedBytes := cbcDecrypt (L.aesD sharedSecretKey)
        (sharedSecretKey.take 16) (b64Decode env.data)
      let res : Except CryptoError (List Nat) :=
        match pkcs7Unpad decryptedBytes with
        | none => .error .decryptionFailed
        | some pt => if L.utf8Check pt then .ok pt else .error .decryptionFailed
      (res, [.verifySig true, .decryptStep])
  else (.error .signatureInvalid, [.verifySig false])

/-- `verifyAndDecrypt`, result only. -/
def verifyAndDecrypt (L : CryptoLib) (recipientPrivateKey senderPublicKey : String)
    (env : SingleEnv) : Except CryptoError (List Nat) :=
  (verifyAndDecryptTr L recipientPrivateKey senderPublicKey env).1

/-- The per-recipient loop of `encryptAndSignForMultipleRecipients`
(crypto.ts lines 230-259): wrap the content key for each recipient and
store it under the MD5 lookup id. -/
def buildShareKeys (L : CryptoLib) (ephPriv : Nat) (ephPubKey : String)
    (aesKey : List Nat) : List String → List (String × String) →
    Except CryptoError (List (String × String))
  | [], shareKeys => .ok shareKeys
  | publicKey :: rest, shareKeys =>
    match L.decodePoint publicKey with
    | none => .error .invalidKey
    | some recipientPublic =>
      let sharedSecretKey := sharedSecretKeyBytes L ephPriv recipientPublic
      let encryptedKey := b64Encode (cryptoJSAESEncrypt L sharedSecretKey
        (some (sharedSecretKey.take 16)) [] false aesKey)
      let keyHash := L.md5 (ephPubKey ++ publicKey)
      buildShareKeys L ephPriv ephPubKey aesKey rest
        (objInsert shareKeys keyHash encryptedKey)

/-- `encryptAndSignForMultipleRecipients` (crypto.ts lines 209-277).  The
ephemeral keypair and the random 256-bit content key
(`CryptoJS.lib.WordArray.random(32)`) are the `ephPriv` and `aesKey`
inputs. -/
def encryptAndSignForMultipleRecipients (L : CryptoLib) (ephPriv : Nat)
    (aesKey : List Nat) (recipientPublicKeys : List String)
    (senderPrivateKey : String) (data : List Nat) : Except CryptoError MultiEnv :=
  let ephPubKey := L.encodePoint (L.actP ephPriv L.basePoint)
  let encrypted := b64Encode (cryptoJSAESEncrypt L aesKey
    (some (aesKey.take 16)) [] true data)
  match buildShareKeys L ephPriv ephPubKey aesKey recipientPublicKeys [] with
  | .error e => .error e
  | .ok shareKeys =>
    let dataToSign := jsonPair ephPubKey encrypted
    let signature := L.sigSign (hexToNat senderPrivateKey) dataToSign
    .ok ⟨ephPubKey, encrypted, shareKeys, signature⟩

/-- `verifyAndDecryptForMultipleRecipients` (crypto.ts lines 286-353),
instrumented with its event trace.  The `!shareKeys[keyHash]` check uses JS
truthiness: a missing key or an empty-string entry both fail. -/
def verifyAndDecryptForMultipleRecipientsTr (L : CryptoLib)
    (recipientPrivateKey senderPublicKey : String) (env : MultiEnv) :
    Except CryptoError (List Nat) × List Ev :=
  let recipientPublicKey := L.encodePoint (L.actP (hexToNat recipientPrivateKey) L.basePoint)
  let dataToVerify := jsonPair env.ephPubKey env.data
  if L.sigVerify senderPublicKey dataToVerify env.signature then
    let keyHash := L.md5 (env.ephPubKey ++ recipientPublicKey)
    let wrapped := (objGet env.shareKeys keyHash).getD ""
    if wrapped = "" then (.error .notRecipient, [.verifySig true, .lookupKey false])
    else
      match L.decodePoint env.ephPubKey with
      | none => (.error .invalidKey, [.verifySig true, .lookupKey true])
      | some ephemeralPublic =>
        let sharedSecretKey :=
          sharedSecretKeyBytes L (hexToNat recipientPrivateKey) ephemeralPublic
        let decryptedKey := cbcDecrypt (L.aesD sharedSecretKey)
          (sharedSecretKey.take 16) (b64Decode wrapped)
        let decryptedBytes := cbcDecrypt (L.aesD decryptedKey)
          (decryptedKey.take 16) (b64Decode env.data)
        let res : Except CryptoError (List Nat) :=
          match pkcs7Unpad decryptedBytes with
          | none => .error .decryptionFailed
          | some pt => if L.utf8Check pt then .ok pt else .error .decryptionFailed
        (res, [.verifySig true, .lookupKey true, .decryptStep, .decryptStep])
  else (.error .signatureInvalid, [.verifySig false])

/-- `verifyAndDecryptForMultipleRecipients`, result only. -/
def verifyAndDecryptForMultipleRecipients (L : CryptoLib)
    (recipientPrivateKey senderPublicKey : String) (env : MultiEnv) :
    Except CryptoError (List Nat) :=
  (verifyAndDecryptForMultipleRecipientsTr L recipientPrivateKey senderPublicKey env).1

/-- `encryptDomainDataBatch` of the encryption-batch module (an unnamed
source file of the repository).  The configuration lookups it awaits are
inputs: `peerKeysOf` is `getEnabledPeerPublicKeys`, `keyIdOf` is
`calculateKeyIdentifier(myPublicKey, domain, serviceName)` and `prepare` is
`prepareDomainDataForEncryption` followed by `JSON.stringify` (returning
`none` when the domain yields nothing encryptable).  Per-domain errors are
caught and the domain is skipped. -/
def encryptDomainDataBatch (L : CryptoLib) (ephPriv : Nat) (aesKey : List Nat)
    (privateKey : String) (peerKeysOf : String → List String)
    (keyIdOf : String → String) (prepare : String → Option (List Nat)) :
    List String → List (String × MultiEnv)
  | [] => []
  | domain :: rest =>
    let peerPublicKeys := peerKeysOf domain
    let _encryptionKey := keyIdOf domain
    if peerPublicKeys.length = 0 then
      encryptDomainDataBatch L ephPriv aesKey privateKey peerKeysOf keyIdOf prepare rest
    else
      match prepare domain with
      | none =>
        encryptDomainDataBatch L ephPriv aesKey privateKey peerKeysOf keyIdOf prepare rest
      | some jsonData =>
        match encryptAndSignForMultipleRecipients L ephPriv aesKey peerPublicKeys
          privateKey jsonData with
        | .error _ =>
          encryptDomainDataBatch L ephPriv aesKey privateKey peerKeysOf keyIdOf prepare rest
        | .ok env =>
          (keyIdOf domain, env) ::
            encryptDomainDataBatch L ephPriv aesKey privateKey peerKeysOf keyIdOf prepare rest

/-- A concrete instantiation of the external-library interface over the
group `ZMod 97`-like `Fin 97`, used to evaluate the protocol on explicit
inputs.  The block cipher is the identity permutation, the digest is the
identity, and the signature scheme pairs the public key with the message. -/
def toyPub (k : Nat) : String := natToHex (k % 97)

/-- Toy point decoding: invert `natToHex` over the 97 group elements. -/
def toyDecodePoint (s : String) : Option (Fin 97) :=
  ((List.range 97).find? (fun v => natToHex v == s)).map
    (fun v => ⟨v % 97, Nat.mod_lt _ (by decide)⟩)

/-- The toy library instance. -/
def toyLib : CryptoLib where
  Pt := Fin 97
  decodePoint := toyDecodePoint
  encodePoint := fun P => natToHex P.val
  actP := fun a P => ⟨a * P.val % 97, Nat.mod_lt _ (by decide)⟩
  basePoint := ⟨1, by decide⟩
  xCoord := fun P => P.val
  aesE := fun _ b => b
  aesD := fun _ b => b
  md5 := fun s => s
  sigSign := fun k m => toyPub k ++ "." ++ m
  sigVerify := fun pub m s => s == pub ++ "." ++ m
  utf8Check := fun _ => true
  decode_encode := by decide
  act_act := by
    intro a b P
    apply Fin.ext
    show a * (b * P.val % 97) % 97 = a * b * P.val % 97
    conv_lhs => rw [Nat.mul_mod, Nat.mod_mod_of_dvd _ dvd_rfl]
    rw [← Nat.mul_mod, mul_assoc]
  xCoord_lt := by
    intro P
    show P.val < 2 ^ 256
    have := P.isLt
    omega
  aesD_aesE := by intro _ _; rfl
  aesE_len := by intro _ _; rfl
  aesE_ok := by intro _ _ h; exact h
  sigVerify_sign := by
    intro k m
    show (toyPub k ++ "." ++ m == natToHex (k * 1 % 97) ++ "." ++ m) = true
    rw [Nat.mul_one]
    exact beq_self_eq_true _

/-- The wrapped content key stored for a recipient point: the content key
encrypted in CBC/NoPadding mode under the recipient's shared secret. -/
def wrapKeyFor (L : CryptoLib) (ephPriv : Nat) (aesKey : List Nat) (pt : L.Pt) : String :=
  b64Encode (cryptoJSAESEncrypt L (sharedSecretKeyBytes L ephPriv pt)
    (some ((sharedSecretKeyBytes L ephPriv pt).take 16)) [] false aesKey)

/-- The wrapped content key stored for a recipient public-key string
(empty when the key does not decode; that case never occurs when
`buildShareKeys` succeeds). -/
def wrapKeyOf (L : CryptoLib) (ephPriv : Nat) (aesKey : List Nat) (pk : String) : String :=
  match L.decodePoint pk with
  | some pt => wrapKeyFor L ephPriv aesKey pt
  | none => ""

theorem hexDigitVal_lt (c : Char) : hexDigitVal c < 16 :=
  Nat.mod_lt _ (by decide)

theorem hexPairs_bytesOk : ∀ l : List Char, BytesOk (hexPairs l)
  | [] => by intro b hb; simp [hexPairs] at hb
  | [c] => by intro b hb; simp [hexPairs] at hb
  | c1 :: c2 :: rest => by
    intro b hb
    rcases List.mem_cons.mp hb with rfl | hb
    · have h1 := hexDigitVal_lt c1
      have h2 := hexDigitVal_lt c2
      omega
    · exact hexPairs_bytesOk rest b hb

theorem hexPairs_length : ∀ l : List Char, (hexPairs l).length = l.length / 2
  | [] => by simp [hexPairs]
  | [_] => by simp [hexPairs]
  | c1 :: c2 :: rest => by
    show (hexPairs rest).length + 1 = (rest.length + 1 + 1) / 2
    rw [hexPairs_length rest]
    omega

theorem natToHexAux_length : ∀ fuel n k : Nat, n < 16 ^ k →
    (natToHexAux fuel n).length ≤ k
  | 0, _, _, _ => by rw [natToHexAux]; simp
  | _ + 1, 0, _, _ => by rw [natToHexAux]; simp
  | f + 1, m + 1, k, h => by
    match k with
    | 0 => simp at h
    | j + 1 =>
      show (natToHexAux f ((m + 1) / 16) ++ [hexDigitChar (m + 1)]).length ≤ j + 1
      have hlt : m + 1 < 16 * 16 ^ j := by
        have : (16 : Nat) ^ (j + 1) = 16 * 16 ^ j := by ring
        omega
      have hd : (m + 1) / 16 < 16 ^ j := Nat.div_lt_of_lt_mul hlt
      have := natToHexAux_length f ((m + 1) / 16) j hd
      simp only [List.length_append, List.length_singleton]
      omega

theorem natToHex_length_le (n : Nat) (h : n < 2 ^ 256) :
    (natToHex n).data.length ≤ 64 := by
  rw [natToHex]
  split
  · simp
  · have h16 : n < 16 ^ 64 := by
      have : (16 : Nat) ^ 64 = 2 ^ 256 := by norm_num
      omega
    simpa using natToHexAux_length 256 n 64 h16

theorem padStart64_length (s : String) (h : s.data.length ≤ 64) :
    (padStart64 s).data.length = 64 := by
  rw [padStart64]
  simp only [List.length_append, List.length_replicate]
  omega

theorem hexAlphabet_getD_mem : ∀ m, m < 16 → hexAlphabet.getD m '0' ∈ hexAlphabet := by
  decide

theorem natToHexAux_mem : ∀ (fuel n : Nat) (c : Char),
    c ∈ natToHexAux fuel n → c ∈ hexAlphabet
  | 0, _, _, hc => by rw [natToHexAux] at hc; cases hc
  | _ + 1, 0, _, hc => by rw [natToHexAux] at hc; cases hc
  | f + 1, m + 1, c, hc => by
    have hc' : c ∈ natToHexAux f ((m + 1) / 16) ++ [hexDigitChar (m + 1)] := hc
    rcases List.mem_append.mp hc' with h | h
    · exact natToHexAux_mem f ((m + 1) / 16) c h
    · rcases List.mem_singleton.mp h with rfl
      exact hexAlphabet_getD_mem _ (Nat.mod_lt _ (by decide))

theorem padStart64_natToHex_mem (n : Nat) (c : Char)
    (hc : c ∈ (padStart64 (natToHex n)).data) : c ∈ hexAlphabet := by
  rw [padStart64] at hc
  rcases List.mem_append.mp hc with h | h
  · rcases List.eq_of_mem_replicate h with rfl
    decide
  · rw [natToHex] at h
    split at h
    · simp at h; subst h; decide
    · exact natToHexAux_mem 256 n c h

theorem b64Val_b64Char : ∀ n, n < 64 → b64Val (b64Char n) = n := by decide

theorem b64Char_ne_eq (n : Nat) : b64Char n ≠ '=' := by
  have h : ∀ m, m < 64 → b64Alphabet.getD m 'A' ≠ '=' := by decide
  exact h (n % 64) (Nat.mod_lt _ (by decide))

theorem b64_decode_encode : ∀ l : List Nat, BytesOk l →
    b64DecodeAux (b64EncodeAux l) = l
  | [], _ => by simp [b64EncodeAux, b64DecodeAux]
  | [a], h => by
    have ha : a < 256 := h a (by simp)
    rw [b64EncodeAux, b64DecodeAux]
    rw [if_pos rfl]
    rw [b64Val_b64Char _ (by omega), b64Val_b64Char _ (by omega)]
    simp only [List.cons.injEq, and_true]
    omega
  | [a, b], h => by
    have ha : a < 256 := h a (by simp)
    have hb : b < 256 := h b (by simp)
    rw [b64EncodeAux, b64DecodeAux]
    rw [if_neg (b64Char_ne_eq _), if_pos rfl]
    rw [b64Val_b64Char _ (by omega), b64Val_b64Char _ (by omega),
      b64Val_b64Char _ (by omega)]
    simp only [List.cons.injEq, and_true]
    omega
  | a :: b :: c :: rest, h => by
    have ha : a < 256 := h a (by simp)
    have hb : b < 256 := h b (by simp)
    have hc : c < 256 := h c (by simp)
    have hrest : BytesOk rest := fun x hx => h x (by simp [hx])
    rw [b64EncodeAux, b64DecodeAux]
    rw [if_neg (b64Char_ne_eq _), if_neg (b64Char_ne_eq _)]
    rw [b64Val_b64Char _ (by omega), b64Val_b64Char _ (by omega),
      b64Val_b64Char _ (by omega), b64Val_b64Char _ (by omega)]
    rw [b64_decode_encode rest hrest]
    simp only [List.cons.injEq, and_true]
    omega

theorem b64EncodeAux_ne_nil : ∀ (a : Nat) (l : List Nat),
    b64EncodeAux (a :: l) ≠ []
  | a, [] => by simp [b64EncodeAux]
  | a, [b] => by simp [b64EncodeAux]
  | a, b :: c :: rest => by simp [b64EncodeAux]

theorem xorBytes_length (a b : List Nat) :
    (xorBytes a b).length = min a.length b.length := by
  simp [xorBytes]

theorem xor_byte_lt (x y : Nat) (hx : x < 256) (hy : y < 256) : x ^^^ y < 256 := by
  have h : Nat.bitwise bne x y < 2 ^ 8 := Nat.bitwise_lt (by omega) (by omega)
  simpa [HXor.hXor, Xor.xor, Nat.xor] using h

theorem xorBytes_cancel : ∀ a b : List Nat, xorBytes a (xorBytes a b) = b.take a.length
  | [], b => by simp [xorBytes]
  | x :: a, [] => by simp [xorBytes]
  | x :: a, y :: b => by
    simp only [xorBytes, List.zipWith_cons_cons, List.take]
    refine congrArg₂ _ ?_ (xorBytes_cancel a b)
    exact Nat.xor_cancel_left x y

theorem xorBytes_bytesOk : ∀ a b : List Nat, BytesOk a → BytesOk b →
    BytesOk (xorBytes a b)
  | [], _, _, _ => by intro x hx; simp [xorBytes] at hx
  | _ :: _, [], _, _ => by intro x hx; simp [xorBytes] at hx
  | x :: a, y :: b, ha, hb => by
    intro z hz
    rcases List.mem_cons.mp hz with rfl | hz
    · exact xor_byte_lt x y (ha x (by simp)) (hb y (by simp))
    · exact xorBytes_bytesOk a b (fun u hu => ha u (by simp [hu]))
        (fun u hu => hb u (by simp [hu])) z hz

theorem chunks16F_join : ∀ (fuel : Nat) (l : List Nat), l.length ≤ fuel →
    (chunks16F fuel l).flatten = l
  | 0, l, h => by
    rw [chunks16F]
    simp only [List.flatten_nil]
    exact (List.eq_nil_of_length_eq_zero (by omega)).symm
  | _ + 1, [], _ => by rw [chunks16F]; rfl
  | fuel + 1, x :: l, h => by
    rw [chunks16F]
    · rw [List.flatten_cons]
      have hd : (List.drop 16 (x :: l)).length ≤ fuel := by
        simp only [List.length_drop, List.length_cons] at *
        omega
      rw [chunks16F_join fuel _ hd]
      exact List.take_append_drop 16 (x :: l)
    · exact List.cons_ne_nil x l

theorem chunks16_join (l : List Nat) : (chunks16 l).flatten = l :=
  chunks16F_join l.length l le_rfl

theorem chunks16F_blocks : ∀ (fuel : Nat) (l : List Nat), l.length ≤ fuel →
    l.length % 16 = 0 → ∀ b ∈ chunks16F fuel l, b.length = 16
  | 0, l, h, _ => by rw [chunks16F]; intro b hb; cases hb
  | _ + 1, [], _, _ => by rw [chunks16F]; intro b hb; cases hb
  | fuel + 1, x :: l, h, hm => by
    rw [chunks16F]
    · intro b hb
      rcases List.mem_cons.mp hb with rfl | hb
      · rw [List.length_take]
        simp only [List.length_cons] at hm ⊢
        omega
      · refine chunks16F_blocks fuel _ ?_ ?_ b hb
        · simp only [List.length_drop, List.length_cons] at h ⊢
          omega
        · simp only [List.length_drop, List.length_cons] at hm ⊢
          omega
    · exact List.cons_ne_nil x l

theorem chunks16F_of_join_blocks : ∀ (fuel : Nat) (bs : List (List Nat)),
    (∀ b ∈ bs, b.length = 16) → bs.flatten.length ≤ fuel →
    chunks16F fuel bs.flatten = bs
  | fuel, [], _, _ => by
    cases fuel <;> rw [List.flatten_nil, chunks16F]
  | 0, b :: bs, hb, h => by
    have : b.length = 16 := hb b (by simp)
    rw [List.flatten_cons] at h
    simp only [List.length_append] at h
    omega
  | fuel + 1, b :: bs, hb, h => by
    have hb16 : b.length = 16 := hb b (by simp)
    have hjoin : (b :: bs).flatten = b ++ bs.flatten := List.flatten_cons
    have hne : (b :: bs).flatten ≠ [] := by
      rw [hjoin]
      intro hcon
      have := congrArg List.length hcon
      simp only [List.length_append, List.length_nil] at this
      omega
    rw [chunks16F]
    · rw [hjoin, List.take_append_of_le_length (by omega),
        List.drop_append_of_le_length (by omega)]
      rw [List.take_of_length_le (by omega), List.drop_of_length_le (by omega)]
      simp only [List.nil_append]
      congr 1
      have hrest : bs.flatten.length ≤ fuel := by
        rw [hjoin] at h
        simp only [List.length_append] at h
        omega
      exact chunks16F_of_join_blocks fuel bs (fun x hx => hb x (by simp [hx])) hrest
    · exact hne

theorem chunks16_of_join_blocks (bs : List (List Nat))
    (hb : ∀ b ∈ bs, b.length = 16) : chunks16 bs.flatten = bs :=
  chunks16F_of_join_blocks bs.flatten.length bs hb le_rfl

theorem pkcs7Pad_length (l : List Nat) :
    (pkcs7Pad l).length = l.length + (16 - l.length % 16) := by
  rw [pkcs7Pad]
  simp [List.length_append]

theorem pkcs7Pad_length_mod (l : List Nat) : (pkcs7Pad l).length % 16 = 0 := by
  rw [pkcs7Pad_length]
  have := Nat.mod_lt l.length (show 0 < 16 by decide)
  omega

theorem pkcs7Pad_bytesOk (l : List Nat) (h : BytesOk l) : BytesOk (pkcs7Pad l) := by
  intro b hb
  rw [pkcs7Pad] at hb
  rcases List.mem_append.mp hb with hb | hb
  · exact h b hb
  · rcases List.eq_of_mem_replicate hb with rfl
    omega

theorem pkcs7Unpad_pad (l : List Nat) : pkcs7Unpad (pkcs7Pad l) = some l := by
  rw [pkcs7Unpad]
  have hk : 1 ≤ 16 - l.length % 16 ∧ 16 - l.length % 16 ≤ 16 := by
    have := Nat.mod_lt l.length (show 0 < 16 by decide)
    omega
  rw [if_neg]
  · have hrev : (pkcs7Pad l).reverse =
        List.replicate (16 - l.length % 16) (16 - l.length % 16) ++ l.reverse := by
      rw [pkcs7Pad, List.reverse_append, List.reverse_replicate]
    simp only [hrev]
    have hhead : (List.replicate (16 - l.length % 16) (16 - l.length % 16) ++
        l.reverse).headD 0 = 16 - l.length % 16 := by
      have : 16 - l.length % 16 ≠ 0 := by omega
      match hrep : List.replicate (16 - l.length % 16) (16 - l.length % 16) with
      | [] =>
        have := congrArg List.length hrep
        simp only [List.length_replicate, List.length_nil] at this
        omega
      | a :: rest =>
        have ham : a ∈ List.replicate (16 - l.length % 16) (16 - l.length % 16) := by
          rw [hrep]; simp
        have ha := List.eq_of_mem_replicate ham
        simp [ha]
    rw [hhead]
    rw [if_neg (by
      push_neg
      refine ⟨by omega, by omega, ?_⟩
      rw [pkcs7Pad_length]
      omega)]
    rw [List.take_append_of_le_length (by simp [List.length_replicate]),
      List.take_of_length_le (by simp [List.length_replicate])]
    rw [if_pos (by
      rw [List.all_eq_true]
      intro b hb
      rcases List.eq_of_mem_replicate hb with rfl
      exact beq_self_eq_true _)]
    rw [List.drop_append_of_le_length (by simp [List.length_replicate]),
      List.drop_of_length_le (by simp [List.length_replicate])]
    simp
  · push_neg
    constructor
    · rw [pkcs7Pad_length]
      have := Nat.mod_lt l.length (show 0 < 16 by decide)
      omega
    · rw [pkcs7Pad_length_mod]

theorem cbcEncBlocks_blocks (E : List Nat → List Nat)
    (hE : ∀ b, (E b).length = b.length) :
    ∀ (iv : List Nat) (bs : List (List Nat)), iv.length = 16 →
      (∀ b ∈ bs, b.length = 16) → ∀ c ∈ cbcEncBlocks E iv bs, c.length = 16 := by
  intro iv bs
  induction bs generalizing iv with
  | nil => intro _ _ c hc; rw [cbcEncBlocks] at hc; cases hc
  | cons b bs ih =>
    intro hiv hbs c hc
    rw [cbcEncBlocks] at hc
    have hb : b.length = 16 := hbs b (by simp)
    have hlen : (E (xorBytes iv b)).length = 16 := by
      rw [hE, xorBytes_length]
      omega
    rcases List.mem_cons.mp hc with rfl | hc
    · exact hlen
    · exact ih _ hlen (fun x hx => hbs x (by simp [hx])) c hc

theorem cbcEncBlocks_bytesOk (E : List Nat → List Nat)
    (hEok : ∀ b, BytesOk b → BytesOk (E b)) :
    ∀ (iv : List Nat) (bs : List (List Nat)), BytesOk iv →
      (∀ b ∈ bs, BytesOk b) → ∀ c ∈ cbcEncBlocks E iv bs, BytesOk c := by
  intro iv bs
  induction bs generalizing iv with
  | nil => intro _ _ c hc; rw [cbcEncBlocks] at hc; cases hc
  | cons b bs ih =>
    intro hiv hbs c hc
    rw [cbcEncBlocks] at hc
    have hok : BytesOk (E (xorBytes iv b)) :=
      hEok _ (xorBytes_bytesOk _ _ hiv (hbs b (by simp)))
    rcases List.mem_cons.mp hc with rfl | hc
    · exact hok
    · exact ih _ hok (fun x hx => hbs x (by simp [hx])) c hc

theorem cbcDecBlocks_cbcEncBlocks (E D : List Nat → List Nat)
    (hDE : ∀ b, D (E b) = b) (hE : ∀ b, (E b).length = b.length) :
    ∀ (iv : List Nat) (bs : List (List Nat)), iv.length = 16 →
      (∀ b ∈ bs, b.length = 16) →
      cbcDecBlocks D iv (cbcEncBlocks E iv bs) = bs := by
  intro iv bs
  induction bs generalizing iv with
  | nil => intro _ _; rw [cbcEncBlocks, cbcDecBlocks]
  | cons b bs ih =>
    intro hiv hbs
    rw [cbcEncBlocks]
    show cbcDecBlocks D iv (E (xorBytes iv b) :: cbcEncBlocks E (E (xorBytes iv b)) bs) = b :: bs
    rw [cbcDecBlocks]
    have hb : b.length = 16 := hbs b (by simp)
    have hlen : (E (xorBytes iv b)).length = 16 := by
      rw [hE, xorBytes_length]; omega
    rw [hDE, xorBytes_cancel, hiv, List.take_of_length_le (by omega)]
    rw [ih _ hlen (fun x hx => hbs x (by simp [hx]))]

theorem cbcDecrypt_cbcEncrypt (E D : List Nat → List Nat)
    (hDE : ∀ b, D (E b) = b) (hE : ∀ b, (E b).length = b.length)
    (iv pt : List Nat) (hiv : iv.length = 16) (hpt : pt.length % 16 = 0) :
    cbcDecrypt D iv (cbcEncrypt E iv pt) = pt := by
  rw [cbcEncrypt, cbcDecrypt]
  have hblocks : ∀ b ∈ chunks16 pt, b.length = 16 :=
    chunks16F_blocks pt.length pt le_rfl hpt
  have hctblocks : ∀ c ∈ cbcEncBlocks E iv (chunks16 pt), c.length = 16 :=
    cbcEncBlocks_blocks E hE iv _ hiv hblocks
  rw [chunks16_of_join_blocks _ hctblocks]
  rw [cbcDecBlocks_cbcEncBlocks E D hDE hE iv _ hiv hblocks]
  exact chunks16_join pt

theorem cbcEncrypt_bytesOk (E : List Nat → List Nat)
    (hEok : ∀ b, BytesOk b → BytesOk (E b)) (iv pt : List Nat)
    (hiv : BytesOk iv) (hpt : BytesOk pt) : BytesOk (cbcEncrypt E iv pt) := by
  intro b hb
  rw [cbcEncrypt] at hb
  rcases List.mem_flatten.mp hb with ⟨c, hc, hbc⟩
  have hchunks : ∀ x ∈ chunks16 pt, BytesOk x := by
    intro x hx y hy
    have hmem : y ∈ (chunks16 pt).flatten := List.mem_flatten.mpr ⟨x, hx, hy⟩
    rw [chunks16_join] at hmem
    exact hpt y hmem
  exact cbcEncBlocks_bytesOk E hEok iv _ hiv hchunks c hc b hbc

theorem cbcEncrypt_length_blocks (E : List Nat → List Nat)
    (hE : ∀ b, (E b).length = b.length) (iv pt : List Nat)
    (hiv : iv.length = 16) (hpt : pt.length % 16 = 0) :
    ∀ c ∈ chunks16 (cbcEncrypt E iv pt), c.length = 16 := by
  rw [cbcEncrypt]
  have hblocks : ∀ b ∈ chunks16 pt, b.length = 16 :=
    chunks16F_blocks pt.length pt le_rfl hpt
  rw [chunks16_of_join_blocks _ (cbcEncBlocks_blocks E hE iv _ hiv hblocks)]
  exact cbcEncBlocks_blocks E hE iv _ hiv hblocks

theorem bytesOk_take (l : List Nat) (n : Nat) (h : BytesOk l) : BytesOk (l.take n) :=
  fun b hb => h b (List.mem_of_mem_take hb)

theorem sharedSecretHex_comm (L : CryptoLib) (a b : Nat) :
    sharedSecretHex L a (L.actP b L.basePoint) =
      sharedSecretHex L b (L.actP a L.basePoint) := by
  rw [sharedSecretHex, sharedSecretHex, L.act_act, L.act_act, Nat.mul_comm]

theorem sharedSecretHex_length (L : CryptoLib) (a : Nat) (p : L.Pt) :
    (sharedSecretHex L a p).data.length = 64 :=
  padStart64_length _ (natToHex_length_le _ (L.xCoord_lt _))

theorem sharedSecretKeyBytes_length (L : CryptoLib) (a : Nat) (p : L.Pt) :
    (sharedSecretKeyBytes L a p).length = 32 := by
  rw [sharedSecretKeyBytes, hexToBytes, hexPairs_length, sharedSecretHex_length]

theorem sharedSecretKeyBytes_bytesOk (L : CryptoLib) (a : Nat) (p : L.Pt) :
    BytesOk (sharedSecretKeyBytes L a p) :=
  hexPairs_bytesOk _

theorem sharedSecretKeyBytes_comm (L : CryptoLib) (a b : Nat) :
    sharedSecretKeyBytes L a (L.actP b L.basePoint) =
      sharedSecretKeyBytes L b (L.actP a L.basePoint) := by
  rw [sharedSecretKeyBytes, sharedSecretKeyBytes, sharedSecretHex_comm]

theorem b64_round_trip (l : List Nat) (h : BytesOk l) : b64Decode (b64Encode l) = l :=
  b64_decode_encode l h

theorem cbc_codec_bytesOk (L : CryptoLib) (key iv body : List Nat)
    (hiv : BytesOk iv) (hbOk : BytesOk body) :
    BytesOk (cbcEncrypt (L.aesE key) iv body) :=
  cbcEncrypt_bytesOk _ (L.aesE_ok key) iv body hiv hbOk

theorem cbc_codec_decrypt (L : CryptoLib) (key body : List Nat)
    (hklen : key.length = 32) (hb16 : body.length % 16 = 0) :
    cbcDecrypt (L.aesD key) (key.take 16)
      (cbcEncrypt (L.aesE key) (key.take 16) body) = body := by
  refine cbcDecrypt_cbcEncrypt _ _ (L.aesD_aesE key) (L.aesE_len key) _ body ?_ hb16
  rw [List.length_take, hklen]
  decide

theorem objInsert_append (m : List (String × String)) (k v : String)
    (h : k ∉ m.map Prod.fst) : objInsert m k v = m ++ [(k, v)] := by
  rw [objInsert, if_neg]
  simp only [List.any_eq_true, not_exists, not_and]
  intro p hp
  intro hbeq
  exact h (List.mem_map.mpr ⟨p, hp, by simpa using hbeq⟩)

theorem objGet_of_mem_nodup : ∀ (m : List (String × String)) (k v : String),
    (k, v) ∈ m → (m.map Prod.fst).Nodup → objGet m k = some v := by
  intro m
  induction m with
  | nil => intro k v h _; cases h
  | cons p rest ih =>
    intro k v hm hnd
    rcases List.mem_cons.mp hm with rfl | hm
    · rw [objGet, List.find?]
      simp
    · have hk : p.1 ≠ k := by
        intro hkeq
        have hknd := (List.nodup_cons.mp hnd).1
        exact hknd (hkeq ▸ List.mem_map.mpr ⟨(k, v), hm, rfl⟩)
      rw [objGet, List.find?]
      have : (p.1 == k) = false := beq_eq_false_iff_ne.mpr hk
      rw [this]
      exact ih k v hm (List.nodup_cons.mp hnd).2

theorem objGet_eq_none (m : List (String × String)) (k : String)
    (h : k ∉ m.map Prod.fst) : objGet m k = none := by
  rw [objGet, List.find?_eq_none.mpr]
  · rfl
  · intro p hp hbeq
    exact h (List.mem_map.mpr ⟨p, hp, by simpa using hbeq⟩)

theorem buildShareKeys_ok (L : CryptoLib) (ephPriv : Nat) (ephPub : String)
    (aesKey : List Nat) : ∀ (pubs : List String) (acc : List (String × String)),
    (∀ pk ∈ pubs, (L.decodePoint pk).isSome) →
    (∀ pk ∈ pubs, L.md5 (ephPub ++ pk) ∉ acc.map Prod.fst) →
    (pubs.map (fun pk => L.md5 (ephPub ++ pk))).Nodup →
    buildShareKeys L ephPriv ephPub aesKey pubs acc =
      .ok (acc ++ pubs.map
        (fun pk => (L.md5 (ephPub ++ pk), wrapKeyOf L ephPriv aesKey pk))) := by
  intro pubs
  induction pubs with
  | nil => intro acc _ _ _; simp [buildShareKeys]
  | cons pk rest ih =>
    intro acc hdec hfresh hnd
    obtain ⟨pt, hpt⟩ := Option.isSome_iff_exists.mp (hdec pk (by simp))
    simp only [buildShareKeys, hpt]
    rw [objInsert_append _ _ _ (hfresh pk (by simp))]
    rw [ih _ (fun x hx => hdec x (by simp [hx])) ?_ (List.nodup_cons.mp hnd).2]
    · rw [List.map_cons, List.append_assoc]
      have : wrapKeyOf L ephPriv aesKey pk = wrapKeyFor L ephPriv aesKey pt := by
        rw [wrapKeyOf, hpt]
      rw [this, wrapKeyFor]
      rfl
    · intro x hx
      simp only [List.map_append, List.map_cons]
      intro hmem
      rcases List.mem_append.mp hmem with hmem | hmem
      · exact hfresh x (by simp [hx]) hmem
      · have hx' : L.md5 (ephPub ++ x) = L.md5 (ephPub ++ pk) := by
          simpa using hmem
        have hhd := (List.nodup_cons.mp hnd).1
        apply hhd
        show L.md5 (ephPub ++ pk) ∈ List.map (fun pk => L.md5 (ephPub ++ pk)) rest
        rw [← hx']
        exact List.mem_map.mpr ⟨x, hx, rfl⟩

/-- C7: ECDH is symmetric and fixed-width: for every ephemeral scalar `a`
and recipient scalar `b`, deriving with (ephemeral private, recipient
public) and with (recipient private, ephemeral public) yields the same
shared secret, namely the affine x-coordinate of the scalar-multiplied
point rendered as exactly 64 lowercase hex characters (left-zero-padded
when the x-coordinate is short). -/
theorem c7_ecdh_symmetric_fixed_width (L : CryptoLib) (a b : Nat) :
    sharedSecretHex L a (L.actP b L.basePoint) =
      sharedSecretHex L b (L.actP a L.basePoint) ∧
    sharedSecretHex L a (L.actP b L.basePoint) =
      padStart64 (natToHex (L.xCoord (L.actP a (L.actP b L.basePoint)))) ∧
    (sharedSecretHex L a (L.actP b L.basePoint)).data.length = 64 ∧
    ∀ c ∈ (sharedSecretHex L a (L.actP b L.basePoint)).data, c ∈ hexAlphabet := by
  refine ⟨sharedSecretHex_comm L a b, rfl, sharedSecretHex_length L a _, ?_⟩
  intro c hc
  exact padStart64_natToHex_mem _ c hc

/-- C5: the symmetric envelope codec is deterministic: its CBC IV is the
first 16 bytes of the key rather than drawn from randomness, so two runs of
`CryptoJS.AES.encrypt` on the same (key, plaintext) — with any two values
of the randomness the library could have drawn — produce byte-identical
ciphertext, in both the padded and the no-padding configuration used by
`crypto.ts`. -/
theorem c5_symmetric_codec_deterministic (L : CryptoLib)
    (key pt rand1 rand2 : List Nat) (doPad : Bool) :
    cryptoJSAESEncrypt L key (some (key.take 16)) rand1 doPad pt =
      cryptoJSAESEncrypt L key (some (key.take 16)) rand2 doPad pt ∧
    cryptoJSAESEncrypt L key (some (key.take 16)) rand1 doPad pt =
      cbcEncrypt (L.aesE key) (key.take 16) (if doPad then pkcs7Pad pt else pt) :=
  ⟨rfl, rfl⟩

/-- C9: when the recipient list of a domain is empty, the batch encryption
loop short-circuits and skips sealing entirely: the domain contributes no
envelope (the emptiness check is performed by `encryptDomainDataBatch`
before invoking `encryptAndSignForMultipleRecipients`), and a batch in
which every domain has zero enabled peer keys produces no envelope at
all. -/
theorem c9_empty_recipients_skip (L : CryptoLib) (ephPriv : Nat)
    (aesKey : List Nat) (privateKey : String) (peerKeysOf : String → List String)
    (keyIdOf : String → String) (prepare : String → Option (List Nat))
    (d : String) (domains : List String) (h : peerKeysOf d = []) :
    encryptDomainDataBatch L ephPriv aesKey privateKey peerKeysOf keyIdOf prepare
        (d :: domains) =
      encryptDomainDataBatch L ephPriv aesKey privateKey peerKeysOf keyIdOf prepare
        domains ∧
    (∀ ds : List String, (∀ d' ∈ ds, peerKeysOf d' = []) →
      encryptDomainDataBatch L ephPriv aesKey privateKey peerKeysOf keyIdOf prepare
        ds = []) := by
  constructor
  · rw [encryptDomainDataBatch]
    rw [h]
    rfl
  · intro ds hds
    induction ds with
    | nil => rw [encryptDomainDataBatch]
    | cons d' rest ih =>
      rw [encryptDomainDataBatch]
      rw [hds d' (by simp)]
      exact ih (fun x hx => hds x (by simp [hx]))

/-- Witness for C9 at a concrete input. -/
theorem c9_empty_recipients_skip_witness :
    (fun _ : String => ([] : List String)) "a.example" = [] ∧
    encryptDomainDataBatch toyLib 3 (List.range 32) "7"
        (fun _ => []) (fun s => s) (fun _ => some [104]) ["a.example"] =
      encryptDomainDataBatch toyLib 3 (List.range 32) "7"
        (fun _ => []) (fun s => s) (fun _ => some [104]) [] := by
  refine ⟨rfl, ?_⟩
  exact (c9_empty_recipients_skip toyLib 3 (List.range 32) "7"
    (fun _ => []) (fun s => s) (fun _ => some [104]) "a.example" [] rfl).1

/-- C2: for every plaintext P and every pair of valid keypairs (sender S,
recipient R), `verifyAndDecrypt(R.private, S.public, encryptAndSign(R.public,
S.private, P))` equals P. -/
theorem c2_roundtrip_single_recipient (L : CryptoLib) (ephPriv : Nat)
    (recipientPrivateKey senderPrivateKey : String) (P : List Nat)
    (hP : BytesOk P) (hutf : L.utf8Check P = true) :
    ∃ env, encryptAndSign L ephPriv
        (L.encodePoint (L.actP (hexToNat recipientPrivateKey) L.basePoint))
        senderPrivateKey P = .ok env ∧
      verifyAndDecrypt L recipientPrivateKey
        (L.encodePoint (L.actP (hexToNat senderPrivateKey) L.basePoint)) env
        = .ok P := by
  refine ⟨⟨L.encodePoint (L.actP ephPriv L.basePoint),
    b64Encode (cryptoJSAESEncrypt L
      (sharedSecretKeyBytes L ephPriv (L.actP (hexToNat recipientPrivateKey) L.basePoint))
      (some ((sharedSecretKeyBytes L ephPriv
        (L.actP (hexToNat recipientPrivateKey) L.basePoint)).take 16)) [] true P),
    L.sigSign (hexToNat senderPrivateKey)
      (jsonPair (L.encodePoint (L.actP ephPriv L.basePoint))
        (b64Encode (cryptoJSAESEncrypt L
          (sharedSecretKeyBytes L ephPriv (L.actP (hexToNat recipientPrivateKey) L.basePoint))
          (some ((sharedSecretKeyBytes L ephPriv
            (L.actP (hexToNat recipientPrivateKey) L.basePoint)).take 16)) [] true P)))⟩,
    ?_, ?_⟩
  · simp only [encryptAndSign, L.decode_encode]
  · simp only [verifyAndDecrypt, verifyAndDecryptTr]
    rw [L.sigVerify_sign]
    simp only [if_true, L.decode_encode]
    rw [sharedSecretKeyBytes_comm]
    simp only [cryptoJSAESEncrypt, if_true]
    rw [b64_round_trip _ (cbc_codec_bytesOk L _ _ _
      (bytesOk_take _ _ (sharedSecretKeyBytes_bytesOk L _ _))
      (pkcs7Pad_bytesOk P hP))]
    rw [cbc_codec_decrypt L _ _ (sharedSecretKeyBytes_length L _ _)
      (pkcs7Pad_length_mod P)]
    rw [pkcs7Unpad_pad]
    simp only [hutf, if_true]

/-- Witness for C2 at a concrete input. -/
theorem c2_roundtrip_single_recipient_witness :
    BytesOk [104, 105] ∧ toyLib.utf8Check [104, 105] = true ∧
    ∃ env, encryptAndSign toyLib 3
        (toyLib.encodePoint (toyLib.actP (hexToNat "5") toyLib.basePoint))
        "7" [104, 105] = .ok env ∧
      verifyAndDecrypt toyLib "5"
        (toyLib.encodePoint (toyLib.actP (hexToNat "7") toyLib.basePoint)) env
        = .ok [104, 105] :=
  ⟨by decide, rfl,
    c2_roundtrip_single_recipient toyLib 3 "5" "7" [104, 105] (by decide) rfl⟩

theorem b64Encode_ne_empty (l : List Nat) (h : l ≠ []) : b64Encode l ≠ "" := by
  match l, h with
  | a :: rest, _ =>
    rw [b64Encode]
    intro hcon
    have : b64EncodeAux (a :: rest) = [] := by
      have := congrArg String.data hcon
      simpa using this
    exact b64EncodeAux_ne_nil a rest this

theorem cbcEncrypt_ne_nil_of_inv (L : CryptoLib) (key body : List Nat)
    (hklen : key.length = 32) (hb16 : body.length % 16 = 0) (hbne : body ≠ []) :
    cbcEncrypt (L.aesE key) (key.take 16) body ≠ [] := by
  intro h0
  have hdec := cbc_codec_decrypt L key body hklen hb16
  rw [h0] at hdec
  have : cbcDecrypt (L.aesD key) (key.take 16) [] = [] := rfl
  rw [this] at hdec
  exact hbne hdec.symm

/-- C8: for every recipient list whose lookup digests are pairwise
distinct, the envelope returned by `encryptAndSignForMultipleRecipients`
contains exactly one `shareKeys` entry per intended recipient, and each
entry's key equals the digest of the concatenation of the ephemeral public
key hex string and that recipient's public key hex string; in particular a
two-recipient list yields a mapping with exactly 2 entries (see the
witness). -/
theorem c8_shareKeys_entry_per_recipient (L : CryptoLib) (ephPriv : Nat)
    (aesKey : List Nat) (pubs : List String) (senderPrivateKey : String)
    (P : List Nat)
    (hdec : ∀ pk ∈ pubs, (L.decodePoint pk).isSome)
    (hnd : (pubs.map (fun pk =>
      L.md5 (L.encodePoint (L.actP ephPriv L.basePoint) ++ pk))).Nodup) :
    ∃ env, encryptAndSignForMultipleRecipients L ephPriv aesKey pubs
        senderPrivateKey P = .ok env ∧
      env.shareKeys.length = pubs.length ∧
      env.shareKeys.map Prod.fst = pubs.map (fun pk =>
        L.md5 (L.encodePoint (L.actP ephPriv L.basePoint) ++ pk)) := by
  have hbuild := buildShareKeys_ok L ephPriv
    (L.encodePoint (L.actP ephPriv L.basePoint)) aesKey pubs [] hdec
    (by intro pk _ hmem; simp at hmem) hnd
  refine ⟨⟨L.encodePoint (L.actP ephPriv L.basePoint),
    b64Encode (cryptoJSAESEncrypt L aesKey (some (aesKey.take 16)) [] true P),
    pubs.map (fun pk =>
      (L.md5 (L.encodePoint (L.actP ephPriv L.basePoint) ++ pk),
        wrapKeyOf L ephPriv aesKey pk)),
    L.sigSign (hexToNat senderPrivateKey)
      (jsonPair (L.encodePoint (L.actP ephPriv L.basePoint))
        (b64Encode (cryptoJSAESEncrypt L aesKey (some (aesKey.take 16)) [] true P)))⟩,
    ?_, ?_, ?_⟩
  · simp only [encryptAndSignForMultipleRecipients, hbuild, List.nil_append]
  · simp
  · simp

/-- Witness for C8 at a concrete two-recipient input: the mapping has
exactly 2 entries. -/
theorem c8_shareKeys_entry_per_recipient_witness :
    (∀ pk ∈ [toyPub 5, toyPub 9], (toyLib.decodePoint pk).isSome) ∧
    ∃ env, encryptAndSignForMultipleRecipients toyLib 3 (List.range 32)
        [toyPub 5, toyPub 9] "7" [104, 105] = .ok env ∧
      env.shareKeys.length = [toyPub 5, toyPub 9].length ∧
      env.shareKeys.map Prod.fst = [toyPub 5, toyPub 9].map (fun pk =>
        toyLib.md5 (toyLib.encodePoint (toyLib.actP 3 toyLib.basePoint) ++ pk)) :=
  ⟨by decide,
    c8_shareKeys_entry_per_recipient toyLib 3 (List.range 32) [toyPub 5, toyPub 9]
      "7" [104, 105] (by decide) (by decide)⟩

/-- C1: for every plaintext P, sender S, and non-empty set of recipient
keypairs (with pairwise-distinct lookup digests), each recipient Ri
independently recovers P:
`verifyAndDecryptForMultipleRecipients(Ri.private, S.public,
encryptAndSignForMultipleRecipients([R1.public..Rn.public], S.private, P))`
equals P. -/
theorem c1_roundtrip_multi_recipient (L : CryptoLib) (ephPriv : Nat)
    (aesKey : List Nat) (recipientPrivateKeys : List String)
    (ri senderPrivateKey : String) (P : List Nat)
    (hmem : ri ∈ recipientPrivateKeys)
    (haes32 : aesKey.length = 32) (haesOk : BytesOk aesKey)
    (hP : BytesOk P) (hutf : L.utf8Check P = true)
    (hnd : ((recipientPrivateKeys.map (fun rp =>
        L.encodePoint (L.actP (hexToNat rp) L.basePoint))).map (fun pk =>
      L.md5 (L.encodePoint (L.actP ephPriv L.basePoint) ++ pk))).Nodup) :
    ∃ env, encryptAndSignForMultipleRecipients L ephPriv aesKey
        (recipientPrivateKeys.map (fun rp =>
          L.encodePoint (L.actP (hexToNat rp) L.basePoint)))
        senderPrivateKey P = .ok env ∧
      verifyAndDecryptForMultipleRecipients L ri
        (L.encodePoint (L.actP (hexToNat senderPrivateKey) L.basePoint)) env
        = .ok P := by
  have hdec : ∀ pk ∈ recipientPrivateKeys.map (fun rp =>
      L.encodePoint (L.actP (hexToNat rp) L.basePoint)), (L.decodePoint pk).isSome := by
    intro pk hpk
    rcases List.mem_map.mp hpk with ⟨rp, _, rfl⟩
    rw [L.decode_encode]
    rfl
  have hbuild := buildShareKeys_ok L ephPriv
    (L.encodePoint (L.actP ephPriv L.basePoint)) aesKey
    (recipientPrivateKeys.map (fun rp =>
      L.encodePoint (L.actP (hexToNat rp) L.basePoint))) [] hdec
    (by intro pk _ hmem'; simp at hmem') hnd
  refine ⟨⟨L.encodePoint (L.actP ephPriv L.basePoint),
    b64Encode (cryptoJSAESEncrypt L aesKey (some (aesKey.take 16)) [] true P),
    (recipientPrivateKeys.map (fun rp =>
      L.encodePoint (L.actP (hexToNat rp) L.basePoint))).map (fun pk =>
        (L.md5 (L.encodePoint (L.actP ephPriv L.basePoint) ++ pk),
          wrapKeyOf L ephPriv aesKey pk)),
    L.sigSign (hexToNat senderPrivateKey)
      (jsonPair (L.encodePoint (L.actP ephPriv L.basePoint))
        (b64Encode (cryptoJSAESEncrypt L aesKey (some (aesKey.take 16)) [] true P)))⟩,
    ?_, ?_⟩
  · simp only [encryptAndSignForMultipleRecipients, hbuild, List.nil_append]
  · have hget : objGet
        ((recipientPrivateKeys.map (fun rp =>
          L.encodePoint (L.actP (hexToNat rp) L.basePoint))).map (fun pk =>
            (L.md5 (L.encodePoint (L.actP ephPriv L.basePoint) ++ pk),
              wrapKeyOf L ephPriv aesKey pk)))
        (L.md5 (L.encodePoint (L.actP ephPriv L.basePoint) ++
          L.encodePoint (L.actP (hexToNat ri) L.basePoint)))
        = some (wrapKeyOf L ephPriv aesKey
            (L.encodePoint (L.actP (hexToNat ri) L.basePoint))) := by
      apply objGet_of_mem_nodup
      · exact List.mem_map.mpr ⟨L.encodePoint (L.actP (hexToNat ri) L.basePoint),
          List.mem_map.mpr ⟨ri, hmem, rfl⟩, rfl⟩
      · simpa [List.map_map, Function.comp] using hnd
    have hwrap : wrapKeyOf L ephPriv aesKey
        (L.encodePoint (L.actP (hexToNat ri) L.basePoint)) =
      b64Encode (cbcEncrypt
        (L.aesE (sharedSecretKeyBytes L ephPriv (L.actP (hexToNat ri) L.basePoint)))
        ((sharedSecretKeyBytes L ephPriv (L.actP (hexToNat ri) L.basePoint)).take 16)
        aesKey) := by
      simp [wrapKeyOf, L.decode_encode, wrapKeyFor, cryptoJSAESEncrypt]
    have hwne : wrapKeyOf L ephPriv aesKey
        (L.encodePoint (L.actP (hexToNat ri) L.basePoint)) ≠ "" := by
      rw [hwrap]
      apply b64Encode_ne_empty
      apply cbcEncrypt_ne_nil_of_inv L _ _ (sharedSecretKeyBytes_length L _ _)
        (by omega)
      intro hcon
      rw [hcon] at haes32
      simp at haes32
    simp only [verifyAndDecryptForMultipleRecipients,
      verifyAndDecryptForMultipleRecipientsTr]
    rw [L.sigVerify_sign]
    simp only [if_true]
    simp only [hget, Option.getD_some]
    rw [if_neg hwne]
    simp only [L.decode_encode]
    rw [sharedSecretKeyBytes_comm]
    rw [hwrap]
    rw [b64_round_trip _ (cbc_codec_bytesOk L _ _ _
      (bytesOk_take _ _ (sharedSecretKeyBytes_bytesOk L _ _)) haesOk)]
    rw [cbc_codec_decrypt L _ _ (sharedSecretKeyBytes_length L _ _) (by omega)]
    simp only [cryptoJSAESEncrypt, if_true]
    rw [b64_round_trip _ (cbc_codec_bytesOk L _ _ _
      (bytesOk_take _ _ haesOk) (pkcs7Pad_bytesOk P hP))]
    rw [cbc_codec_decrypt L _ _ haes32 (pkcs7Pad_length_mod P)]
    rw [pkcs7Unpad_pad]
    simp only [hutf, if_true]

/-- Witness for C1 at a concrete input: two recipients, the first one
decrypts. -/
theorem c1_roundtrip_multi_recipient_witness :
    "5" ∈ ["5", "9"] ∧ (List.range 32).length = 32 ∧
    ∃ env, encryptAndSignForMultipleRecipients toyLib 3 (List.range 32)
        (["5", "9"].map (fun rp =>
          toyLib.encodePoint (toyLib.actP (hexToNat rp) toyLib.basePoint)))
        "7" [104, 105] = .ok env ∧
      verifyAndDecryptForMultipleRecipients toyLib "5"
        (toyLib.encodePoint (toyLib.actP (hexToNat "7") toyLib.basePoint)) env
        = .ok [104, 105] :=
  ⟨by decide, by decide,
    c1_roundtrip_multi_recipient toyLib 3 (List.range 32) ["5", "9"] "5" "7"
      [104, 105] (by decide) (by decide) (by decide) (by decide) rfl (by decide)⟩

theorem string_append_left_cancel (s t t' : String) (h : s ++ t = s ++ t') :
    t = t' := by
  have hd := congrArg String.data h
  rw [String.data_append, String.data_append] at hd
  exact String.ext (List.append_cancel_left hd)

theorem string_append_right_cancel (s s' t : String) (h : s ++ t = s' ++ t) :
    s = s' := by
  have hd := congrArg String.data h
  rw [String.data_append, String.data_append] at hd
  exact String.ext (List.append_cancel_right hd)

theorem jsonPair_inj_right (e d d' : String) (h : jsonPair e d = jsonPair e d') :
    d = d' := by
  have hd := congrArg String.data h
  rw [jsonPair, jsonPair] at hd
  simp only [String.data_append, List.append_assoc] at hd
  have h1 := List.append_cancel_left hd
  have h2 := List.append_cancel_left h1
  have h3 := List.append_cancel_left h2
  exact String.ext (List.append_cancel_right h3)

theorem encryptAndSign_signature_field (L : CryptoLib) (ephPriv : Nat)
    (recipientPublicKey senderPrivateKey : String) (P : List Nat) (env : SingleEnv)
    (h : encryptAndSign L ephPriv recipientPublicKey senderPrivateKey P = .ok env) :
    env.signature = L.sigSign (hexToNat senderPrivateKey)
      (jsonPair env.ephPubKey env.data) := by
  cases hdp : L.decodePoint recipientPublicKey with
  | none =>
    simp only [encryptAndSign, hdp] at h
    exact Except.noConfusion h
  | some pt =>
    simp only [encryptAndSign, hdp, Except.ok.injEq] at h
    subst h
    rfl

theorem sealMany_signature_field (L : CryptoLib) (ephPriv : Nat) (aesKey : List Nat)
    (recipientPublicKeys : List String) (senderPrivateKey : String) (P : List Nat)
    (env : MultiEnv)
    (h : encryptAndSignForMultipleRecipients L ephPriv aesKey recipientPublicKeys
      senderPrivateKey P = .ok env) :
    env.signature = L.sigSign (hexToNat senderPrivateKey)
      (jsonPair env.ephPubKey env.data) := by
  cases hb : buildShareKeys L ephPriv (L.encodePoint (L.actP ephPriv L.basePoint))
      aesKey recipientPublicKeys [] with
  | error e =>
    simp only [encryptAndSignForMultipleRecipients, hb] at h
    exact Except.noConfusion h
  | ok sk =>
    simp only [encryptAndSignForMultipleRecipients, hb, Except.ok.injEq] at h
    subst h
    rfl

/-- C6: in `verifyAndDecrypt` and `verifyAndDecryptForMultipleRecipients`
signature verification is performed before any symmetric decryption, and in
the multi-recipient case the `shareKeys` lookup also precedes any
decryption: whenever a decryption event appears in the execution trace it
is preceded by a successful verification (and lookup), and on a signature
or lookup failure the functions stop with an error, executing no decryption
step and producing no (partial) plaintext. -/
theorem c6_verify_and_lookup_before_decrypt (L : CryptoLib) :
    (∀ (rk sp : String) (env : SingleEnv),
      (Ev.decryptStep ∈ (verifyAndDecryptTr L rk sp env).2 →
        (verifyAndDecryptTr L rk sp env).2.take 1 = [Ev.verifySig true]) ∧
      (L.sigVerify sp (jsonPair env.ephPubKey env.data) env.signature = false →
        (verifyAndDecryptTr L rk sp env).2 = [Ev.verifySig false] ∧
        (verifyAndDecryptTr L rk sp env).1 = .error .signatureInvalid)) ∧
    (∀ (rk sp : String) (env : MultiEnv),
      (Ev.decryptStep ∈ (verifyAndDecryptForMultipleRecipientsTr L rk sp env).2 →
        (verifyAndDecryptForMultipleRecipientsTr L rk sp env).2.take 2 =
          [Ev.verifySig true, Ev.lookupKey true]) ∧
      (L.sigVerify sp (jsonPair env.ephPubKey env.data) env.signature = false →
        (verifyAndDecryptForMultipleRecipientsTr L rk sp env).2 =
          [Ev.verifySig false] ∧
        (verifyAndDecryptForMultipleRecipientsTr L rk sp env).1 =
          .error .signatureInvalid) ∧
      (L.sigVerify sp (jsonPair env.ephPubKey env.data) env.signature = true →
        (objGet env.shareKeys (L.md5 (env.ephPubKey ++
          L.encodePoint (L.actP (hexToNat rk) L.basePoint)))).getD "" = "" →
        (verifyAndDecryptForMultipleRecipientsTr L rk sp env).2 =
          [Ev.verifySig true, Ev.lookupKey false] ∧
        (verifyAndDecryptForMultipleRecipientsTr L rk sp env).1 =
          .error .notRecipient ∧
        Ev.decryptStep ∉ (verifyAndDecryptForMultipleRecipientsTr L rk sp env).2)) := by
  constructor
  · intro rk sp env
    cases hsv : L.sigVerify sp (jsonPair env.ephPubKey env.data) env.signature with
    | false =>
      refine ⟨?_, fun _ => ?_⟩
      · intro hdec
        simp [verifyAndDecryptTr, hsv] at hdec
      · simp [verifyAndDecryptTr, hsv]
    | true =>
      refine ⟨?_, fun hcon => by simp [hsv] at hcon⟩
      intro _
      cases hdp : L.decodePoint env.ephPubKey with
      | none => simp [verifyAndDecryptTr, hsv, hdp]
      | some pt => simp [verifyAndDecryptTr, hsv, hdp]
  · intro rk sp env
    cases hsv : L.sigVerify sp (jsonPair env.ephPubKey env.data) env.signature with
    | false =>
      refine ⟨?_, fun _ => ?_, fun hcon => by simp [hsv] at hcon⟩
      · intro hdec
        simp [verifyAndDecryptForMultipleRecipientsTr, hsv] at hdec
      · simp [verifyAndDecryptForMultipleRecipientsTr, hsv]
    | true =>
      refine ⟨?_, fun hcon => by simp [hsv] at hcon, ?_⟩
      · intro hdec
        by_cases hw : (objGet env.shareKeys (L.md5 (env.ephPubKey ++
            L.encodePoint (L.actP (hexToNat rk) L.basePoint)))).getD "" = ""
        · simp [verifyAndDecryptForMultipleRecipientsTr, hsv, hw] at hdec
        · cases hdp : L.decodePoint env.ephPubKey with
          | none => simp [verifyAndDecryptForMultipleRecipientsTr, hsv, hw, hdp]
          | some pt => simp [verifyAndDecryptForMultipleRecipientsTr, hsv, hw, hdp]
      · intro _ hw
        refine ⟨?_, ?_, ?_⟩ <;>
          simp [verifyAndDecryptForMultipleRecipientsTr, hsv, hw]

/-- Witness for C6 at concrete inputs: an envelope with an invalid
signature yields a verification-failure trace with no decryption event, and
a decrypting run's trace starts with a successful verification and
lookup. -/
theorem c6_verify_and_lookup_before_decrypt_witness :
    (toyLib.sigVerify "7" (jsonPair "3" "zz") "bad" = false ∧
      (verifyAndDecryptTr toyLib "5" "7" ⟨"3", "zz", "bad"⟩).2 =
        [Ev.verifySig false] ∧
      (verifyAndDecryptTr toyLib "5" "7" ⟨"3", "zz", "bad"⟩).1 =
        .error .signatureInvalid) ∧
    (Ev.decryptStep ∈ (verifyAndDecryptForMultipleRecipientsTr toyLib "5" "7"
        ⟨"3", "AA==", [("35", "QQ==")],
          toyLib.sigSign (hexToNat "7") (jsonPair "3" "AA==")⟩).2 ∧
      (verifyAndDecryptForMultipleRecipientsTr toyLib "5" "7"
        ⟨"3", "AA==", [("35", "QQ==")],
          toyLib.sigSign (hexToNat "7") (jsonPair "3" "AA==")⟩).2.take 2 =
        [Ev.verifySig true, Ev.lookupKey true]) := by
  refine ⟨⟨by decide, ?_⟩, ⟨by decide, ?_⟩⟩
  · exact ((c6_verify_and_lookup_before_decrypt toyLib).1 "5" "7"
      ⟨"3", "zz", "bad"⟩).2 (by decide)
  · exact ((c6_verify_and_lookup_before_decrypt toyLib).2 "5" "7"
      ⟨"3", "AA==", [("35", "QQ==")],
        toyLib.sigSign (hexToNat "7") (jsonPair "3" "AA==")⟩).1 (by decide)

/-- C4: for every multi-recipient envelope built from a recipient list and
every keypair D whose public key is not in the list (its lookup digest
collides with no listed recipient's), decryption by D fails with a
`NotAnIntendedRecipient` error — the lookup id is absent from `shareKeys` —
and no symmetric decryption is attempted. -/
theorem c4_exclusion_not_a_recipient (L : CryptoLib) (ephPriv : Nat)
    (aesKey : List Nat) (pubs : List String) (dPriv senderPrivateKey : String)
    (P : List Nat)
    (hdec : ∀ pk ∈ pubs, (L.decodePoint pk).isSome)
    (hnd : (pubs.map (fun pk =>
      L.md5 (L.encodePoint (L.actP ephPriv L.basePoint) ++ pk))).Nodup)
    (hcol : ∀ pk ∈ pubs,
      L.md5 (L.encodePoint (L.actP ephPriv L.basePoint) ++
        L.encodePoint (L.actP (hexToNat dPriv) L.basePoint)) ≠
      L.md5 (L.encodePoint (L.actP ephPriv L.basePoint) ++ pk)) :
    ∃ env, encryptAndSignForMultipleRecipients L ephPriv aesKey pubs
        senderPrivateKey P = .ok env ∧
      objGet env.shareKeys (L.md5 (env.ephPubKey ++
        L.encodePoint (L.actP (hexToNat dPriv) L.basePoint))) = none ∧
      (verifyAndDecryptForMultipleRecipientsTr L dPriv
        (L.encodePoint (L.actP (hexToNat senderPrivateKey) L.basePoint)) env).1
        = .error .notRecipient ∧
      Ev.decryptStep ∉ (verifyAndDecryptForMultipleRecipientsTr L dPriv
        (L.encodePoint (L.actP (hexToNat senderPrivateKey) L.basePoint)) env).2 := by
  have hbuild := buildShareKeys_ok L ephPriv
    (L.encodePoint (L.actP ephPriv L.basePoint)) aesKey pubs [] hdec
    (by intro pk _ hmem; simp at hmem) hnd
  refine ⟨⟨L.encodePoint (L.actP ephPriv L.basePoint),
    b64Encode (cryptoJSAESEncrypt L aesKey (some (aesKey.take 16)) [] true P),
    pubs.map (fun pk =>
      (L.md5 (L.encodePoint (L.actP ephPriv L.basePoint) ++ pk),
        wrapKeyOf L ephPriv aesKey pk)),
    L.sigSign (hexToNat senderPrivateKey)
      (jsonPair (L.encodePoint (L.actP ephPriv L.basePoint))
        (b64Encode (cryptoJSAESEncrypt L aesKey (some (aesKey.take 16)) [] true P)))⟩,
    ?_, ?_, ?_, ?_⟩
  · simp only [encryptAndSignForMultipleRecipients, hbuild, List.nil_append]
  · apply objGet_eq_none
    intro hmem
    simp only [List.map_map] at hmem
    rcases List.mem_map.mp hmem with ⟨pk, hpk, heq⟩
    exact hcol pk hpk (by simpa using heq.symm)
  · have hgetnone : objGet
        (pubs.map (fun pk =>
          (L.md5 (L.encodePoint (L.actP ephPriv L.basePoint) ++ pk),
            wrapKeyOf L ephPriv aesKey pk)))
        (L.md5 (L.encodePoint (L.actP ephPriv L.basePoint) ++
          L.encodePoint (L.actP (hexToNat dPriv) L.basePoint))) = none := by
      apply objGet_eq_none
      intro hmem
      simp only [List.map_map] at hmem
      rcases List.mem_map.mp hmem with ⟨pk, hpk, heq⟩
      exact hcol pk hpk (by simpa using heq.symm)
    simp only [verifyAndDecryptForMultipleRecipientsTr]
    rw [L.sigVerify_sign]
    simp only [if_true, hgetnone, Option.getD_none]
  · have hgetnone : objGet
        (pubs.map (fun pk =>
          (L.md5 (L.encodePoint (L.actP ephPriv L.basePoint) ++ pk),
            wrapKeyOf L ephPriv aesKey pk)))
        (L.md5 (L.encodePoint (L.actP ephPriv L.basePoint) ++
          L.encodePoint (L.actP (hexToNat dPriv) L.basePoint))) = none := by
      apply objGet_eq_none
      intro hmem
      simp only [List.map_map] at hmem
      rcases List.mem_map.mp hmem with ⟨pk, hpk, heq⟩
      exact hcol pk hpk (by simpa using heq.symm)
    simp only [verifyAndDecryptForMultipleRecipientsTr]
    rw [L.sigVerify_sign]
    simp only [if_true, hgetnone, Option.getD_none]
    decide

/-- Witness for C4 at a concrete input: keypair `b` is excluded from the
two-recipient list. -/
theorem c4_exclusion_not_a_recipient_witness :
    (∀ pk ∈ [toyPub 5, toyPub 9], (toyLib.decodePoint pk).isSome) ∧
    ∃ env, encryptAndSignForMultipleRecipients toyLib 3 (List.range 32)
        [toyPub 5, toyPub 9] "7" [104, 105] = .ok env ∧
      objGet env.shareKeys (toyLib.md5 (env.ephPubKey ++
        toyLib.encodePoint (toyLib.actP (hexToNat "b") toyLib.basePoint))) = none ∧
      (verifyAndDecryptForMultipleRecipientsTr toyLib "b"
        (toyLib.encodePoint (toyLib.actP (hexToNat "7") toyLib.basePoint)) env).1
        = .error .notRecipient ∧
      Ev.decryptStep ∉ (verifyAndDecryptForMultipleRecipientsTr toyLib "b"
        (toyLib.encodePoint (toyLib.actP (hexToNat "7") toyLib.basePoint)) env).2 :=
  ⟨by decide,
    c4_exclusion_not_a_recipient toyLib 3 (List.range 32) [toyPub 5, toyPub 9]
      "b" "7" [104, 105] (by decide) (by decide) (by decide)⟩

theorem tampered_sig_verify_false (L : CryptoLib) (sk : Nat)
    (e d d' sig sig' : String)
    (hsound : ∀ m s, L.sigVerify (L.encodePoint (L.actP sk L.basePoint)) m s = true →
      s = L.sigSign sk m)
    (hinj : ∀ m m', L.sigSign sk m = L.sigSign sk m' → m = m')
    (hsig : sig = L.sigSign sk (jsonPair e d))
    (halt : (d' ≠ d ∧ sig' = sig) ∨ (d' = d ∧ sig' ≠ sig)) :
    L.sigVerify (L.encodePoint (L.actP sk L.basePoint)) (jsonPair e d') sig'
      = false := by
  cases hBool : L.sigVerify (L.encodePoint (L.actP sk L.basePoint))
      (jsonPair e d') sig' with
  | false => rfl
  | true =>
    exfalso
    have hs := hsound _ _ hBool
    rcases halt with ⟨hdne, rfl⟩ | ⟨rfl, hsne⟩
    · rw [hsig] at hs
      exact hdne (jsonPair_inj_right e d d' (hinj _ _ hs)).symm
    · exact hsne (hs.trans hsig.symm)

/-- C3: for every envelope produced by `encryptAndSign` /
`encryptAndSignForMultipleRecipients`, altering the `data` field (while
keeping the signature) or the `signature` field (while keeping the data) —
in particular flipping any byte of either — makes `verifyAndDecrypt` /
`verifyAndDecryptForMultipleRecipients` fail with a `SignatureInvalid`
error without executing any decryption step, so no (silently-wrong)
plaintext is ever returned.  The signature scheme is assumed sound (only
the sender's signature of a message verifies) and message-binding. -/
theorem c3_tamper_detection (L : CryptoLib) (senderPrivateKey : String)
    (hsound : ∀ m s, L.sigVerify
        (L.encodePoint (L.actP (hexToNat senderPrivateKey) L.basePoint)) m s = true →
      s = L.sigSign (hexToNat senderPrivateKey) m)
    (hinj : ∀ m m', L.sigSign (hexToNat senderPrivateKey) m =
      L.sigSign (hexToNat senderPrivateKey) m' → m = m') :
    (∀ (ephPriv : Nat) (recipientPublicKey rk : String) (P : List Nat)
        (env env' : SingleEnv),
      encryptAndSign L ephPriv recipientPublicKey senderPrivateKey P = .ok env →
      env'.ephPubKey = env.ephPubKey →
      ((env'.data ≠ env.data ∧ env'.signature = env.signature) ∨
        (env'.data = env.data ∧ env'.signature ≠ env.signature)) →
      (verifyAndDecryptTr L rk
        (L.encodePoint (L.actP (hexToNat senderPrivateKey) L.basePoint)) env').1
        = .error .signatureInvalid ∧
      Ev.decryptStep ∉ (verifyAndDecryptTr L rk
        (L.encodePoint (L.actP (hexToNat senderPrivateKey) L.basePoint)) env').2) ∧
    (∀ (ephPriv : Nat) (aesKey : List Nat) (recipientPublicKeys : List String)
        (rk : String) (P : List Nat) (env env' : MultiEnv),
      encryptAndSignForMultipleRecipients L ephPriv aesKey recipientPublicKeys
        senderPrivateKey P = .ok env →
      env'.ephPubKey = env.ephPubKey →
      ((env'.data ≠ env.data ∧ env'.signature = env.signature) ∨
        (env'.data = env.data ∧ env'.signature ≠ env.signature)) →
      (verifyAndDecryptForMultipleRecipientsTr L rk
        (L.encodePoint (L.actP (hexToNat senderPrivateKey) L.basePoint)) env').1
        = .error .signatureInvalid ∧
      Ev.decryptStep ∉ (verifyAndDecryptForMultipleRecipientsTr L rk
        (L.encodePoint (L.actP (hexToNat senderPrivateKey) L.basePoint)) env').2) := by
  constructor
  · intro ephPriv recipientPublicKey rk P env env' hseal heq halt
    have hsig := encryptAndSign_signature_field L ephPriv recipientPublicKey
      senderPrivateKey P env hseal
    have hv := tampered_sig_verify_false L (hexToNat senderPrivateKey)
      env.ephPubKey env.data env'.data env.signature env'.signature hsound hinj
      hsig halt
    rw [← heq] at hv
    constructor
    · simp [verifyAndDecryptTr, hv]
    · simp [verifyAndDecryptTr, hv]
  · intro ephPriv aesKey recipientPublicKeys rk P env env' hseal heq halt
    have hsig := sealMany_signature_field L ephPriv aesKey recipientPublicKeys
      senderPrivateKey P env hseal
    have hv := tampered_sig_verify_false L (hexToNat senderPrivateKey)
      env.ephPubKey env.data env'.data env.signature env'.signature hsound hinj
      hsig halt
    rw [← heq] at hv
    constructor
    · simp [verifyAndDecryptForMultipleRecipientsTr, hv]
    · simp [verifyAndDecryptForMultipleRecipientsTr, hv]

/-- Witness for C3 at a concrete input: a byte appended to the `data`
field of a sealed envelope makes decryption fail with `SignatureInvalid`
and no decryption step. -/
theorem c3_tamper_detection_witness :
    ("aGkODg4ODg4ODg4ODg4ODg==x" ≠ "aGkODg4ODg4ODg4ODg4ODg==" ∧
      encryptAndSign toyLib 3 (toyPub 5) "7" [104, 105] =
        .ok ⟨"3", "aGkODg4ODg4ODg4ODg4ODg==",
          toyLib.sigSign (hexToNat "7")
            (jsonPair "3" "aGkODg4ODg4ODg4ODg4ODg==")⟩) ∧
    (verifyAndDecryptTr toyLib "5"
      (toyLib.encodePoint (toyLib.actP (hexToNat "7") toyLib.basePoint))
      ⟨"3", "aGkODg4ODg4ODg4ODg4ODg==x",
        toyLib.sigSign (hexToNat "7")
          (jsonPair "3" "aGkODg4ODg4ODg4ODg4ODg==")⟩).1
      = .error .signatureInvalid ∧
    Ev.decryptStep ∉ (verifyAndDecryptTr toyLib "5"
      (toyLib.encodePoint (toyLib.actP (hexToNat "7") toyLib.basePoint))
      ⟨"3", "aGkODg4ODg4ODg4ODg4ODg==x",
        toyLib.sigSign (hexToNat "7")
          (jsonPair "3" "aGkODg4ODg4ODg4ODg4ODg==")⟩).2 := by
  refine ⟨⟨by decide, by rfl⟩, ?_⟩
  exact (c3_tamper_detection toyLib "7"
      (fun m s h => eq_of_beq h)
      (fun m m' h => string_append_left_cancel _ _ _ h)).1
    3 (toyPub 5) "5" [104, 105]
    ⟨"3", "aGkODg4ODg4ODg4ODg4ODg==",
      toyLib.sigSign (hexToNat "7") (jsonPair "3" "aGkODg4ODg4ODg4ODg4ODg==")⟩
    ⟨"3", "aGkODg4ODg4ODg4ODg4ODg==x",
      toyLib.sigSign (hexToNat "7") (jsonPair "3" "aGkODg4ODg4ODg4ODg4ODg==")⟩
    (by rfl) rfl (Or.inl ⟨by decide, rfl⟩)

/-- C10: when symmetric decryption is reached (signature valid, keys
decodable, and — in the multi-recipient case — the lookup successful) and
the decrypted bytes have inconsistent padding or format, `verifyAndDecrypt`
and `verifyAndDecryptForMultipleRecipients` fail with a `DecryptionFailed`
error — and this error occurs exactly then; whenever a plaintext is
returned it is the complete, well-formed unpadding of the decrypted bytes,
so no error path returns partial or garbage plaintext. -/
theorem c10_decryption_failed_characterization (L : CryptoLib) :
    (∀ (rk sp : String) (env : SingleEnv) (pt : L.Pt),
      L.sigVerify sp (jsonPair env.ephPubKey env.data) env.signature = true →
      L.decodePoint env.ephPubKey = some pt →
      ((verifyAndDecrypt L rk sp env = .error .decryptionFailed ↔
        (pkcs7Unpad (cbcDecrypt (L.aesD (sharedSecretKeyBytes L (hexToNat rk) pt))
            ((sharedSecretKeyBytes L (hexToNat rk) pt).take 16)
            (b64Decode env.data)) = none ∨
          ∃ q, pkcs7Unpad (cbcDecrypt
              (L.aesD (sharedSecretKeyBytes L (hexToNat rk) pt))
              ((sharedSecretKeyBytes L (hexToNat rk) pt).take 16)
              (b64Decode env.data)) = some q ∧ L.utf8Check q = false)) ∧
        (∀ ptxt, verifyAndDecrypt L rk sp env = .ok ptxt →
          pkcs7Unpad (cbcDecrypt (L.aesD (sharedSecretKeyBytes L (hexToNat rk) pt))
            ((sharedSecretKeyBytes L (hexToNat rk) pt).take 16)
            (b64Decode env.data)) = some ptxt ∧ L.utf8Check ptxt = true))) ∧
    (∀ (rk sp : String) (env : MultiEnv) (pt : L.Pt),
      L.sigVerify sp (jsonPair env.ephPubKey env.data) env.signature = true →
      (objGet env.shareKeys (L.md5 (env.ephPubKey ++
        L.encodePoint (L.actP (hexToNat rk) L.basePoint)))).getD "" ≠ "" →
      L.decodePoint env.ephPubKey = some pt →
      (let dk := cbcDecrypt (L.aesD (sharedSecretKeyBytes L (hexToNat rk) pt))
        ((sharedSecretKeyBytes L (hexToNat rk) pt).take 16)
        (b64Decode ((objGet env.shareKeys (L.md5 (env.ephPubKey ++
          L.encodePoint (L.actP (hexToNat rk) L.basePoint)))).getD ""));
      (verifyAndDecryptForMultipleRecipients L rk sp env
          = .error .decryptionFailed ↔
        (pkcs7Unpad (cbcDecrypt (L.aesD dk) (dk.take 16)
            (b64Decode env.data)) = none ∨
          ∃ q, pkcs7Unpad (cbcDecrypt (L.aesD dk) (dk.take 16)
            (b64Decode env.data)) = some q ∧ L.utf8Check q = false)) ∧
        (∀ ptxt, verifyAndDecryptForMultipleRecipients L rk sp env = .ok ptxt →
          pkcs7Unpad (cbcDecrypt (L.aesD dk) (dk.take 16)
            (b64Decode env.data)) = some ptxt ∧ L.utf8Check ptxt = true))) := by
  constructor
  · intro rk sp env pt hv hdp
    rw [verifyAndDecrypt, verifyAndDecryptTr]
    rw [hv]
    simp only [if_true, hdp]
    cases hu : pkcs7Unpad (cbcDecrypt
        (L.aesD (sharedSecretKeyBytes L (hexToNat rk) pt))
        ((sharedSecretKeyBytes L (hexToNat rk) pt).take 16)
        (b64Decode env.data)) with
    | none =>
      refine ⟨⟨fun _ => Or.inl rfl, fun _ => by simp [hu]⟩, fun ptxt hok => ?_⟩
      simp [hu] at hok
    | some q =>
      cases hc : L.utf8Check q with
      | false =>
        refine ⟨⟨fun _ => Or.inr ⟨q, rfl, hc⟩, fun _ => by simp [hu, hc]⟩,
          fun ptxt hok => ?_⟩
        simp [hu, hc] at hok
      | true =>
        refine ⟨⟨fun hcon => ?_, fun hcon => ?_⟩, fun ptxt hok => ?_⟩
        · simp [hu, hc] at hcon
        · rcases hcon with hcon | ⟨q', hq', hc'⟩
          · exact absurd hcon (by simp)
          · rw [Option.some.injEq] at hq'
            rw [← hq'] at hc'
            rw [hc] at hc'
            cases hc'
        · simp only [hu, hc, if_true] at hok
          rw [Except.ok.injEq] at hok
          exact ⟨hok ▸ rfl, hok ▸ hc⟩
  · intro rk sp env pt hv hw hdp
    rw [verifyAndDecryptForMultipleRecipients, verifyAndDecryptForMultipleRecipientsTr]
    rw [hv]
    simp only [if_true]
    rw [if_neg hw]
    simp only [hdp]
    set dk := cbcDecrypt (L.aesD (sharedSecretKeyBytes L (hexToNat rk) pt))
      ((sharedSecretKeyBytes L (hexToNat rk) pt).take 16)
      (b64Decode ((objGet env.shareKeys (L.md5 (env.ephPubKey ++
        L.encodePoint (L.actP (hexToNat rk) L.basePoint)))).getD "")) with hdk
    cases hu : pkcs7Unpad (cbcDecrypt (L.aesD dk) (dk.take 16)
        (b64Decode env.data)) with
    | none =>
      refine ⟨⟨fun _ => Or.inl rfl, fun _ => by simp [hu]⟩, fun ptxt hok => ?_⟩
      simp [hu] at hok
    | some q =>
      cases hc : L.utf8Check q with
      | false =>
        refine ⟨⟨fun _ => Or.inr ⟨q, rfl, hc⟩, fun _ => by simp [hu, hc]⟩,
          fun ptxt hok => ?_⟩
        simp [hu, hc] at hok
      | true =>
        refine ⟨⟨fun hcon => ?_, fun hcon => ?_⟩, fun ptxt hok => ?_⟩
        · simp [hu, hc] at hcon
        · rcases hcon with hcon | ⟨q', hq', hc'⟩
          · exact absurd hcon (by simp)
          · rw [Option.some.injEq] at hq'
            rw [← hq'] at hc'
            rw [hc] at hc'
            cases hc'
        · simp only [hu, hc, if_true] at hok
          rw [Except.ok.injEq] at hok
          exact ⟨hok ▸ rfl, hok ▸ hc⟩

/-- Witness for C10 at a concrete input: a forged-but-verifying envelope
whose ciphertext decrypts to all-zero bytes has inconsistent padding, and
decryption fails with `DecryptionFailed`. -/
theorem c10_decryption_failed_characterization_witness :
    toyLib.sigVerify "7"
      (jsonPair "3" "AAAAAAAAAAAAAAAAAAAAAA==")
      (toyLib.sigSign (hexToNat "7")
        (jsonPair "3" "AAAAAAAAAAAAAAAAAAAAAA==")) = true ∧
    verifyAndDecrypt toyLib "5" "7"
      ⟨"3", "AAAAAAAAAAAAAAAAAAAAAA==",
        toyLib.sigSign (hexToNat "7")
          (jsonPair "3" "AAAAAAAAAAAAAAAAAAAAAA==")⟩
      = .error .decryptionFailed := by
  refine ⟨by decide, ?_⟩
  exact (((c10_decryption_failed_characterization toyLib).1 "5" "7"
    ⟨"3", "AAAAAAAAAAAAAAAAAAAAAA==",
      toyLib.sigSign (hexToNat "7")
        (jsonPair "3" "AAAAAAAAAAAAAAAAAAAAAA==")⟩
    ⟨3, by decide⟩ (by decide) rfl).1).mpr (Or.inl (by decide))

end CookieCloud
